import Mathlib

/-!
# Verification of the screener market-data pipeline

Shallow embedding of the API handler in `src/pages/index.tsx` (the
market-data aggregation pipeline): instrument-universe resolution, the
indicator engine (rolling returns, VWAP, EMA, z-score), the validity
gate and final sort, the retry-with-backoff utility, and the snapshot
cache.

Modelling conventions:
* Numeric strings parsed with `parseFloat` are modelled as rationals
  (`ℚ`).  Well-formed exchange payloads are decimal strings, so `NaN`
  and `Infinity` are not representable; every `!isNaN(x)` check in the
  source is therefore vacuously true in the model and every validity
  check `x > 0 && !isNaN(x)` becomes `0 < x`.
* `Math.sqrt` is real square root, so the z-score value lives in `ℝ`
  while every other computation stays in `ℚ`.
* JavaScript array indexing `a[i]` (always in-bounds at the use sites)
  is modelled with `List.getD` and a default candle.
* The concurrent batches (`Promise.allSettled`) preserve input order,
  so the merge of per-symbol results is modelled as an order-preserving
  `filterMap` over batches of 25; network results are supplied by a
  `fetch` oracle function.
-/

/-- One OHLCV candle row from the klines endpoint (`BinanceKline`):
only the fields the pipeline reads (indices 2,3,4,5 of the row). -/
structure Candle where
  high : ℚ
  low : ℚ
  close : ℚ
  volume : ℚ
deriving DecidableEq

/-- Default used to model JS array indexing; only read behind bounds
guards in the source. -/
def defaultCandle : Candle := ⟨0, 0, 0, 0⟩

/-- One 24h-ticker entry (`BinanceTicker`), numeric fields parsed. -/
structure Ticker where
  symbol : String
  lastPrice : ℚ
  quoteVolume : ℚ
deriving DecidableEq

/-- One entry of the exchange-metadata symbol list
(`BinanceExchangeInfo.symbols`). -/
structure ExchangeSymbolInfo where
  symbol : String
  status : String
  contractType : String
deriving DecidableEq

/-- `parseFloat(klines[i][4])`: the close of the i-th candle. -/
def closeAt (klines : List Candle) (i : ℕ) : ℚ :=
  (klines.getD i defaultCandle).close

/-- `parseFloat(klines[klines.length - 1][4])`: the last close. -/
def lastCloseOf (klines : List Candle) : ℚ :=
  closeAt klines (klines.length - 1)

/-- `dailyReturn` (index.tsx line 1624): current price vs the close one
candle back, zero-fallback when fewer than 2 candles. -/
def dailyReturn (klines : List Candle) (currentPrice : ℚ) : ℚ :=
  if 2 ≤ klines.length then
    ((currentPrice - closeAt klines (klines.length - 2)) /
      closeAt klines (klines.length - 2)) * 100
  else 0

/-- `weeklyReturn` (index.tsx line 1631): current price vs the close
seven candles back, zero-fallback when fewer than 8 candles. -/
def weeklyReturn (klines : List Candle) (currentPrice : ℚ) : ℚ :=
  if 8 ≤ klines.length then
    ((currentPrice - closeAt klines (klines.length - 8)) /
      closeAt klines (klines.length - 8)) * 100
  else 0

/-- `monthlyReturn` (index.tsx line 1638): the source compares against
`klines[klines.length - 30]` with a 30-candle threshold (which is the
close 29 periods back, not 30 as its own comment states). -/
def monthlyReturn (klines : List Candle) (currentPrice : ℚ) : ℚ :=
  if 30 ≤ klines.length then
    ((currentPrice - closeAt klines (klines.length - 30)) /
      closeAt klines (klines.length - 30)) * 100
  else 0

/-- `calculateVWAP` (index.tsx line 1648): one pass over the trailing
`days` candles accumulating `typicalPrice * volume` and `volume`
(`klines.slice(-days)` is `drop (length - days)` for `days ≥ 1`). -/
def calculateVWAP (klines : List Candle) (currentPrice : ℚ) (days : ℕ) :
    ℚ × ℚ :=
  let periodKlines := klines.drop (klines.length - days)
  let totals := periodKlines.foldl
    (fun acc c =>
      (acc.1 + ((c.high + c.low + c.close) / 3) * c.volume,
       acc.2 + c.volume))
    ((0 : ℚ), (0 : ℚ))
  let vwap := if 0 < totals.2 then totals.1 / totals.2 else currentPrice
  let distance := if 0 < vwap then ((currentPrice - vwap) / vwap) * 100 else 0
  (vwap, distance)

/-- `calculateEMA` (index.tsx line 1680): filter to valid closes, seed
with the first valid close, iterate `ema = close*k + ema*(1-k)` with
`k = 2/(period+1)`; fall back to the current price when fewer than
`period` (valid) candles, or when the final value is not positive.
The `[]` branch of the match corresponds to the out-of-bounds access
`validKlines[0]` the source would make for `period = 0` (never called;
all call sites use 200). -/
def calculateEMA (klines : List Candle) (period : ℕ) (currentPrice : ℚ) : ℚ :=
  if klines.length < period then currentPrice
  else
    let validKlines := klines.filter fun c => 0 < c.close
    if validKlines.length < period then currentPrice
    else
      match validKlines with
      | [] => currentPrice
      | c :: rest =>
        let k : ℚ := 2 / ((period : ℚ) + 1)
        let ema := rest.foldl (fun e c2 => c2.close * k + e * (1 - k)) c.close
        if ema ≤ 0 then currentPrice else ema

/-- `klines.slice(-31)`: the trailing 31-candle window used by the
z-score (index.tsx line 1760). -/
def recentOf (klines : List Candle) : List Candle :=
  klines.drop (klines.length - 31)

/-- The day-over-day percentage returns of consecutive valid candle
pairs (index.tsx lines 1763-1771): a pair contributes only when both
closes are positive. -/
def returnsOf (recent : List Candle) : List ℚ :=
  (recent.zip recent.tail).filterMap fun p =>
    if 0 < p.1.close ∧ 0 < p.2.close then
      some (((p.2.close - p.1.close) / p.1.close) * 100)
    else none

/-- Mean of a list of returns (index.tsx line 1776). -/
def meanOf (l : List ℚ) : ℚ := l.sum / l.length

/-- Population variance of a list of returns (index.tsx line 1779). -/
def varOf (l : List ℚ) : ℚ :=
  (l.map fun x => (x - meanOf l) ^ 2).sum / l.length

/-- Today's return against the last coarse close (index.tsx line 1784,
non-fallback branch). -/
def todayReturnOf (klines : List Candle) (currentPrice : ℚ) : ℚ :=
  ((currentPrice - lastCloseOf klines) / lastCloseOf klines) * 100

/-- The rational core of the z-score computation (index.tsx lines
1753-1785): requires 31 candles and 30 valid returns, then yields
`(mean, variance, todayReturn)`, where `todayReturn` falls back to the
already-computed daily return when the last close is not positive. -/
def zScoreCore (klines : List Candle) (currentPrice dailyRet : ℚ) :
    Option (ℚ × ℚ × ℚ) :=
  if 31 ≤ klines.length then
    let rs := returnsOf (recentOf klines)
    if 30 ≤ rs.length then
      let today :=
        if 0 < lastCloseOf klines then todayReturnOf klines currentPrice
        else dailyRet
      some (meanOf rs, varOf rs, today)
    else none
  else none

/-- The z-score (index.tsx lines 1786-1791): `(mean - todayReturn) /
Math.sqrt(variance)`, assigned only when the standard deviation is
positive (the source's `!isNaN` guards are vacuous in the model). -/
noncomputable def zScoreVal (klines : List Candle) (currentPrice dailyRet : ℚ) :
    Option ℝ :=
  match zScoreCore klines currentPrice dailyRet with
  | none => none
  | some mvt =>
    if 0 < Real.sqrt (mvt.2.1 : ℝ) then
      some (((mvt.1 : ℝ) - (mvt.2.2 : ℝ)) / Real.sqrt (mvt.2.1 : ℝ))
    else none

/-- The pipeline's output record (`CryptoData`, index.tsx line 1380). -/
structure CryptoData where
  symbol : String
  currentPrice : ℚ
  dailyReturn : ℚ
  weeklyReturn : ℚ
  monthlyReturn : ℚ
  volume : ℚ
  vwap7d : ℚ
  vwapDistance7d : ℚ
  vwap30d : ℚ
  vwapDistance30d : ℚ
  vwap90d : ℚ
  vwapDistance90d : ℚ
  vwap365d : ℚ
  vwapDistance365d : ℚ
  ema2004h : ℚ
  ema200Distance4h : ℚ
  ema2001d : ℚ
  ema200Distance1d : ℚ
  zScore : Option ℝ
  oiChange24h : Option ℚ
  oiChange7d : Option ℚ

/-- `hasValidKlines4h` (index.tsx line 1611): a nonempty 4h series with
some positive close. -/
def hasValidKlines4hOf (klines4h : List Candle) : Prop :=
  klines4h ≠ [] ∧ ∃ c ∈ klines4h, 0 < c.close

instance (klines4h : List Candle) : Decidable (hasValidKlines4hOf klines4h) := by
  unfold hasValidKlines4hOf; infer_instance

/-- `ema2004h` (index.tsx lines 1716-1731): the 200-period 4h EMA,
computed only for a valid 4h series of at least 200 candles, else the
current price. -/
def ema2004hOf (klines4h : List Candle) (currentPrice : ℚ) : ℚ :=
  if hasValidKlines4hOf klines4h ∧ 200 ≤ klines4h.length then
    calculateEMA klines4h 200 currentPrice
  else currentPrice

/-- `priceFor4hDistance` (index.tsx lines 1717-1726): the most recent
4h close when available and positive, else the current price. -/
def priceFor4hOf (klines4h : List Candle) (currentPrice : ℚ) : ℚ :=
  if hasValidKlines4hOf klines4h ∧ 200 ≤ klines4h.length then
    if 0 < lastCloseOf klines4h then lastCloseOf klines4h else currentPrice
  else currentPrice

/-- `priceFor1dDistance` (index.tsx lines 1734-1741). -/
def priceFor1dOf (klines : List Candle) (currentPrice : ℚ) : ℚ :=
  if 0 < lastCloseOf klines then lastCloseOf klines else currentPrice

/-- Distance of a reference price from an EMA value (index.tsx lines
1748-1749), zero when the EMA is not positive. -/
def ema200Distance (ema price : ℚ) : ℚ :=
  if 0 < ema then ((price - ema) / ema) * 100 else 0

/-- The per-symbol record computation (index.tsx lines 1531-2020),
network effects factored out: the caller supplies the fetched candle
series and the open-interest change results.  `none` models every
`return null` path: invalid current price (line 1538), empty or fully
invalid coarse series (lines 1596-1608), and the validity gate (lines
1985-1996: minimum 24h volume of 10,000 and a positive second-to-last
coarse close).  The source computes the indicator fields before
evaluating the gate; the computations are pure, so testing the gate
first is equivalent. -/
noncomputable def processSymbol (t : Ticker) (klines klines4h : List Candle)
    (oi24 oi7 : Option ℚ) : Option CryptoData :=
  if ¬ 0 < t.lastPrice then none
  else if klines.length = 0 then none
  else if ¬ ∃ c ∈ klines, 0 < c.close then none
  else if ¬ (10000 ≤ t.quoteVolume ∧ 2 ≤ klines.length ∧
             0 < closeAt klines (klines.length - 2)) then none
  else some
    { symbol := t.symbol
      currentPrice := t.lastPrice
      dailyReturn := dailyReturn klines t.lastPrice
      weeklyReturn := weeklyReturn klines t.lastPrice
      monthlyReturn := monthlyReturn klines t.lastPrice
      volume := t.quoteVolume
      vwap7d := (calculateVWAP klines t.lastPrice 7).1
      vwapDistance7d := (calculateVWAP klines t.lastPrice 7).2
      vwap30d := (calculateVWAP klines t.lastPrice 30).1
      vwapDistance30d := (calculateVWAP klines t.lastPrice 30).2
      vwap90d := (calculateVWAP klines t.lastPrice 90).1
      vwapDistance90d := (calculateVWAP klines t.lastPrice 90).2
      vwap365d := (calculateVWAP klines t.lastPrice 365).1
      vwapDistance365d := (calculateVWAP klines t.lastPrice 365).2
      ema2004h := ema2004hOf klines4h t.lastPrice
      ema200Distance4h :=
        ema200Distance (ema2004hOf klines4h t.lastPrice)
          (priceFor4hOf klines4h t.lastPrice)
      ema2001d := calculateEMA klines 200 t.lastPrice
      ema200Distance1d :=
        ema200Distance (calculateEMA klines 200 t.lastPrice)
          (priceFor1dOf klines t.lastPrice)
      zScore := zScoreVal klines t.lastPrice (dailyReturn klines t.lastPrice)
      oiChange24h := oi24
      oiChange7d := oi7 }

/-- The network results for one symbol: the mandatory coarse (1d)
series (`none` models a failed fetch, which drops the symbol), the
optional fine (4h) series, and the two open-interest change results. -/
structure FetchData where
  coarse : Option (List Candle)
  fine : List Candle
  oi24 : Option ℚ
  oi7 : Option ℚ

/-- One symbol of a batch (index.tsx lines 1572-1598): a failed coarse
fetch yields `null`, otherwise the record computation runs. -/
noncomputable def processFetched (t : Ticker) (fd : FetchData) :
    Option CryptoData :=
  match fd.coarse with
  | none => none
  | some klines => processSymbol t klines fd.fine fd.oi24 fd.oi7

/-- Stable insertion of `x` into a list ordered by descending key:
`x` goes in front of the first strictly smaller key, so equal keys
keep their original relative order, matching the stable
`Array.prototype.sort` with comparator `(a, b) => key(b) - key(a)`. -/
def insertDescBy {α : Type} (key : α → ℚ) (x : α) : List α → List α
  | [] => [x]
  | y :: ys => if key y < key x then x :: y :: ys else y :: insertDescBy key x ys

/-- Stable sort by descending key (models the JS stable sort used at
index.tsx lines 1484 and 2048). -/
def sortDescBy {α : Type} (key : α → ℚ) (l : List α) : List α :=
  l.foldl (fun acc x => insertDescBy key x acc) []

/-- `symbol.endsWith('USDT')` (index.tsx line 1451), modelled as a
suffix test on the character list (extensionally the same predicate,
stated so that concrete instances evaluate). -/
def endsWithUSDT (s : String) : Bool := "USDT".data.isSuffixOf s.data

/-- The instrument-universe resolver (index.tsx lines 1444-1485):
symbols that are TRADING PERPETUAL USDT contracts, with positive
parsed last price and 24h quote volume, sorted by descending quote
volume, capped at 100. -/
def resolveUniverse (exInfo : List ExchangeSymbolInfo)
    (tickers : List Ticker) : List Ticker :=
  let activeSymbols :=
    (exInfo.filter fun s =>
      s.status = "TRADING" ∧ s.contractType = "PERPETUAL" ∧
        endsWithUSDT s.symbol = true).map fun s => s.symbol
  (sortDescBy (fun tk => tk.quoteVolume)
    (tickers.filter fun tk =>
      tk.symbol ∈ activeSymbols ∧ 0 < tk.quoteVolume ∧
        0 < tk.lastPrice)).take 100

/-- The batch loop (index.tsx lines 1527-2041): slices of 25 symbols,
each processed by `Promise.allSettled` (which preserves input order),
results appended batch by batch. -/
noncomputable def runBatches (fetch : Ticker → FetchData) :
    List Ticker → List CryptoData
  | [] => []
  | t :: rest =>
      ((t :: rest).take 25).filterMap (fun tk => processFetched tk (fetch tk))
        ++ runBatches fetch (rest.drop 24)
termination_by l => l.length
decreasing_by
  simp only [List.length_drop, List.length_cons]
  omega

/-- The full pipeline after the cache check (index.tsx lines
1444-2048): resolve the universe, fetch and process every symbol in
batches, and sort the merged records by descending volume. -/
noncomputable def pipelineOutput (exInfo : List ExchangeSymbolInfo)
    (tickers : List Ticker) (fetch : Ticker → FetchData) : List CryptoData :=
  sortDescBy (fun r => r.volume) (runBatches fetch (resolveUniverse exInfo tickers))

/-- Outcome of one attempt of a wrapped fetch: success, an HTTP 429
with an optional advertised retry-after value (in seconds), or any
other error. -/
inductive FetchResult (α : Type) where
  | success (v : α)
  | http429 (retryAfter : Option ℕ)
  | failure
deriving DecidableEq

/-- Result of `retryWithBackoff`: the wrapped call's value, a
propagated exception (the last 429 or the non-429 error), or the
`return null` after the loop. -/
inductive RetryOutcome (α : Type) where
  | ok (v : α)
  | thrown429 (retryAfter : Option ℕ)
  | thrownFailure
  | nullResult
deriving DecidableEq

/-- The wait before a retry (index.tsx lines 1506-1508): the advertised
retry-after converted to milliseconds when present, else
`baseDelay * 2 ^ attempt`. -/
def retryAfterDelay (ra : Option ℕ) (baseDelay attempt : ℕ) : ℕ :=
  match ra with
  | some s => s * 1000
  | none => baseDelay * 2 ^ attempt

/-- The retry loop of `retryWithBackoff` (index.tsx lines 1501-1515),
fuelled by the remaining iterations (`fuel = maxRetries - attempt`).
The attempt outcomes are supplied by the oracle `f`; the second
component records the delays awaited before each retry. -/
def retryGo {α : Type} (f : ℕ → FetchResult α) (maxRetries baseDelay : ℕ) :
    ℕ → ℕ → RetryOutcome α × List ℕ
  | 0, _ => (RetryOutcome.nullResult, [])
  | fuel + 1, attempt =>
    match f attempt with
    | FetchResult.success v => (RetryOutcome.ok v, [])
    | FetchResult.http429 ra =>
      if attempt < maxRetries - 1 then
        let r0 := retryGo f maxRetries baseDelay fuel (attempt + 1)
        (r0.1, retryAfterDelay ra baseDelay attempt :: r0.2)
      else (RetryOutcome.thrown429 ra, [])
    | FetchResult.failure => (RetryOutcome.thrownFailure, [])

/-- `retryWithBackoff` (index.tsx lines 1496-1517): run the loop from
attempt 0.  The source defaults are `maxRetries = 3`,
`baseDelay = 1000`. -/
def retryWithBackoff {α : Type} (f : ℕ → FetchResult α)
    (maxRetries baseDelay : ℕ) : RetryOutcome α × List ℕ :=
  retryGo f maxRetries baseDelay maxRetries 0

/-- `CacheEntry` (index.tsx line 1333): the cached record set and its
computed-at timestamp (milliseconds). -/
structure CacheEntry where
  data : List CryptoData
  timestamp : ℕ

/-- `CACHE_TTL` (index.tsx line 1339): two minutes. -/
def CACHE_TTL : ℕ := 2 * 60 * 1000

/-- The handler's cache discipline (index.tsx lines 1409-1419 and
2056-2060): serve a non-expired entry without touching upstream,
otherwise run the full pipeline (whose successful result is supplied
as `pipelineData`) and replace the entry.  The returned flag records
whether the upstream pipeline ran.  The cache check performs no await
between `cache.get` and the response, so on the single-threaded event
loop each request's check is atomic and concurrent requests are
modelled as a sequence of these steps. -/
def handleRequest (st : Option CacheEntry) (now : ℕ)
    (pipelineData : List CryptoData) :
    List CryptoData × Option CacheEntry × Bool :=
  match st with
  | some e =>
    if now - e.timestamp < CACHE_TTL then (e.data, some e, false)
    else (pipelineData, some ⟨pipelineData, now⟩, true)
  | none => (pipelineData, some ⟨pipelineData, now⟩, true)

/-- A sequence of requests, each with its arrival time and the record
set a pipeline run at that moment would produce: returns the
responses, the final cache state, and how many upstream pipeline
executions were issued. -/
def processRequests (st : Option CacheEntry) :
    List (ℕ × List CryptoData) →
    List (List CryptoData) × Option CacheEntry × ℕ
  | [] => ([], st, 0)
  | r :: rest =>
    let step := handleRequest st r.1 r.2
    let next := processRequests step.2.1 rest
    (step.1 :: next.1, next.2.1, (if step.2.2 then 1 else 0) + next.2.2)

/-- The VWAP accumulator pass computes the two sums. -/
theorem foldl_pair_sum (f g : Candle → ℚ) :
    ∀ (l : List Candle) (a b : ℚ),
      l.foldl (fun acc c => (acc.1 + f c, acc.2 + g c)) (a, b) =
        (a + (l.map f).sum, b + (l.map g).sum) := by
  intro l
  induction l with
  | nil => intro a b; simp
  | cons c l ih =>
    intro a b
    simp only [List.foldl_cons, List.map_cons, List.sum_cons, ih]
    rw [Prod.mk.injEq]
    constructor <;> ring

/-- The EMA iteration keeps a positive value when every close is
positive and the smoothing factor lies in (0, 1]. -/
theorem foldl_ema_pos (k : ℚ) (hk0 : 0 < k) (hk1 : k ≤ 1) :
    ∀ (l : List Candle) (e : ℚ), 0 < e → (∀ c ∈ l, 0 < c.close) →
      0 < l.foldl (fun e0 c2 => c2.close * k + e0 * (1 - k)) e := by
  intro l
  induction l with
  | nil => intro e he _; simpa using he
  | cons c l ih =>
    intro e he hall
    simp only [List.foldl_cons]
    apply ih
    · have hc : 0 < c.close := hall c (by simp)
      have h1 : 0 < c.close * k := mul_pos hc hk0
      have h2 : 0 ≤ e * (1 - k) := mul_nonneg he.le (by linarith)
      linarith
    · intro c2 hc2; exact hall c2 (by simp [hc2])

/-- If a `filterMap` drops nothing (the output is as long as the
input), then `f` succeeds on every element. -/
theorem all_isSome_of_length_le {α β : Type} (f : α → Option β) :
    ∀ l : List α, l.length ≤ (l.filterMap f).length →
      ∀ x ∈ l, (f x).isSome := by
  intro l
  induction l with
  | nil => intro _ x hx; cases hx
  | cons a l ih =>
    intro h x hx
    cases hfa : f a with
    | none =>
      exfalso
      rw [List.filterMap_cons_none hfa] at h
      have := List.length_filterMap_le f l
      simp only [List.length_cons] at h
      omega
    | some b =>
      rcases List.mem_cons.mp hx with hx | hx
      · subst hx; simp [hfa]
      · refine ih ?_ x hx
        rw [List.filterMap_cons_some hfa] at h
        simp only [List.length_cons] at h
        omega

/-- Stable descending insertion is a permutation of consing. -/
theorem insertDescBy_perm {α : Type} (key : α → ℚ) (x : α) :
    ∀ l : List α, (insertDescBy key x l).Perm (x :: l) := by
  intro l
  induction l with
  | nil => simp [insertDescBy]
  | cons y ys ih =>
    simp only [insertDescBy]
    by_cases h : key y < key x
    · simp [h]
    · simp only [h, if_false]
      exact ((ih.cons y).trans (List.Perm.swap x y ys))

/-- Stable descending insertion preserves the descending-key order. -/
theorem insertDescBy_sorted {α : Type} (key : α → ℚ) (x : α) :
    ∀ l : List α, l.Pairwise (fun a b => key b ≤ key a) →
      (insertDescBy key x l).Pairwise (fun a b => key b ≤ key a) := by
  intro l
  induction l with
  | nil => intro _; simp [insertDescBy]
  | cons y ys ih =>
    intro h
    rcases List.pairwise_cons.mp h with ⟨hy, hys⟩
    simp only [insertDescBy]
    by_cases hlt : key y < key x
    · simp only [hlt, if_true]
      refine List.pairwise_cons.mpr ⟨?_, h⟩
      intro b hb
      rcases List.mem_cons.mp hb with hb | hb
      · subst hb; exact hlt.le
      · exact (hy b hb).trans hlt.le
    · simp only [hlt, if_false]
      refine List.pairwise_cons.mpr ⟨?_, ih hys⟩
      intro b hb
      have hb2 := (insertDescBy_perm key x ys).mem_iff.mp hb
      rcases List.mem_cons.mp hb2 with hb3 | hb3
      · subst hb3; exact le_of_not_lt hlt
      · exact hy b hb3

/-- The stable descending sort permutes its input. -/
theorem sortDescBy_perm {α : Type} (key : α → ℚ) (l : List α) :
    (sortDescBy key l).Perm l := by
  suffices h : ∀ (l acc : List α),
      (l.foldl (fun acc x => insertDescBy key x acc) acc).Perm (acc ++ l) by
    simpa using h l []
  intro l
  induction l with
  | nil => intro acc; simp
  | cons x xs ih =>
    intro acc
    simp only [List.foldl_cons]
    refine (ih (insertDescBy key x acc)).trans ?_
    have h1 : (insertDescBy key x acc ++ xs).Perm ((x :: acc) ++ xs) :=
      (insertDescBy_perm key x acc).append_right xs
    refine h1.trans ?_
    simp only [List.cons_append]
    exact (List.perm_middle).symm

/-- The stable descending sort is ordered by descending key. -/
theorem sortDescBy_sorted {α : Type} (key : α → ℚ) (l : List α) :
    (sortDescBy key l).Pairwise (fun a b => key b ≤ key a) := by
  suffices h : ∀ (l acc : List α), acc.Pairwise (fun a b => key b ≤ key a) →
      (l.foldl (fun acc x => insertDescBy key x acc) acc).Pairwise
        (fun a b => key b ≤ key a) by
    exact h l [] (by simp)
  intro l
  induction l with
  | nil => intro acc h; simpa using h
  | cons x xs ih =>
    intro acc h
    simp only [List.foldl_cons]
    exact ih (insertDescBy key x acc) (insertDescBy_sorted key x acc h)

/-- The batch loop is the order-preserving merge of the per-symbol
results: batching only groups the concurrently awaited fetches. -/
theorem runBatches_eq (fetch : Ticker → FetchData) (l : List Ticker) :
    runBatches fetch l = l.filterMap fun tk => processFetched tk (fetch tk) := by
  suffices h : ∀ (n : ℕ) (l : List Ticker), l.length ≤ n →
      runBatches fetch l = l.filterMap fun tk => processFetched tk (fetch tk) by
    exact h l.length l le_rfl
  intro n
  induction n with
  | zero =>
    intro l hl
    have : l = [] := List.eq_nil_of_length_eq_zero (by omega)
    subst this
    simp [runBatches]
  | succ n ih =>
    intro l hl
    cases l with
    | nil => simp [runBatches]
    | cons t rest =>
      rw [runBatches]
      have hdrop : (t :: rest).drop 25 = rest.drop 24 := by
        simp [List.drop_succ_cons]
      have hlen : (rest.drop 24).length ≤ n := by
        simp only [List.length_drop]
        simp only [List.length_cons] at hl
        omega
      rw [ih (rest.drop 24) hlen, ← hdrop]
      rw [← List.filterMap_append]
      rw [List.take_append_drop]

/-- Inside the loop the fuel never runs out: the loop only continues
while `attempt < maxRetries - 1`. -/
theorem retryGo_ne_null {α : Type} (f : ℕ → FetchResult α)
    (maxRetries baseDelay : ℕ) :
    ∀ (fuel attempt : ℕ), maxRetries - attempt = fuel → attempt < maxRetries →
      (retryGo f maxRetries baseDelay fuel attempt).1 ≠
        RetryOutcome.nullResult := by
  intro fuel
  induction fuel with
  | zero => intro attempt h1 h2; omega
  | succ n ih =>
    intro attempt h1 h2
    simp only [retryGo]
    cases hf : f attempt with
    | success v => simp
    | failure => simp
    | http429 ra =>
      by_cases hcond : attempt < maxRetries - 1
      · simp only [hcond, if_true]
        exact ih (attempt + 1) (by omega) (by omega)
      · simp [hcond]

/-- C9: Under the retry utility's default configuration (3 attempts,
1-second base delay), a wrapped fetch is attempted at most 3 times
(hence at most 2 waits); every wait is preceded by an HTTP 429 outcome
and lasts the upstream-advertised retry-after when present, else
`1000 * 2 ^ attempt` ms (1s then 2s); a non-429 error on the first
attempt propagates immediately with no retry; and three consecutive
429s exhaust the 3 attempts, waiting before the two retries, and
propagate the last 429. -/
theorem retryWithBackoff_spec {α : Type} (f : ℕ → FetchResult α) :
    (retryWithBackoff f 3 1000).2.length ≤ 2 ∧
    (∀ i, ∀ hi : i < (retryWithBackoff f 3 1000).2.length,
      ∃ ra, f i = FetchResult.http429 ra ∧
        (retryWithBackoff f 3 1000).2.get ⟨i, hi⟩ = retryAfterDelay ra 1000 i) ∧
    (f 0 = FetchResult.failure →
      retryWithBackoff f 3 1000 = (RetryOutcome.thrownFailure, [])) ∧
    (∀ ra0 ra1 ra2, f 0 = FetchResult.http429 ra0 →
      f 1 = FetchResult.http429 ra1 → f 2 = FetchResult.http429 ra2 →
      retryWithBackoff f 3 1000 =
        (RetryOutcome.thrown429 ra2,
         [retryAfterDelay ra0 1000 0, retryAfterDelay ra1 1000 1])) := by
  rcases hf0 : f 0 with v0 | ra0 | _
  case success =>
    have e : retryWithBackoff f 3 1000 = (RetryOutcome.ok v0, []) := by
      simp [retryWithBackoff, retryGo, hf0]
    rw [e]
    refine ⟨by simp, by intro i hi; simp at hi, ?_, ?_⟩
    · intro h; simp at h
    · intro ra0 ra1 ra2 h0 h1 h2; simp at h0
  case failure =>
    have e : retryWithBackoff f 3 1000 = (RetryOutcome.thrownFailure, []) := by
      simp [retryWithBackoff, retryGo, hf0]
    rw [e]
    refine ⟨by simp, by intro i hi; simp at hi, fun _ => rfl, ?_⟩
    intro ra0 ra1 ra2 h0 h1 h2; simp at h0
  case http429 =>
    rcases hf1 : f 1 with v1 | ra1 | _
    case success =>
      have e : retryWithBackoff f 3 1000 =
          (RetryOutcome.ok v1, [retryAfterDelay ra0 1000 0]) := by
        simp [retryWithBackoff, retryGo, hf0, hf1]
      rw [e]
      refine ⟨by simp, ?_, ?_, ?_⟩
      · intro i hi
        simp only [List.length_cons, List.length_nil] at hi
        cases i with
        | zero => exact ⟨ra0, hf0, rfl⟩
        | succ j => omega
      · intro h; simp at h
      · intro ra0h ra1h ra2h h0 h1 h2; simp at h1
    case failure =>
      have e : retryWithBackoff f 3 1000 =
          (RetryOutcome.thrownFailure, [retryAfterDelay ra0 1000 0]) := by
        simp [retryWithBackoff, retryGo, hf0, hf1]
      rw [e]
      refine ⟨by simp, ?_, ?_, ?_⟩
      · intro i hi
        simp only [List.length_cons, List.length_nil] at hi
        cases i with
        | zero => exact ⟨ra0, hf0, rfl⟩
        | succ j => omega
      · intro h; simp at h
      · intro ra0h ra1h ra2h h0 h1 h2; simp at h1
    case http429 =>
      rcases hf2 : f 2 with v2 | ra2 | _ <;>
        [(have e : retryWithBackoff f 3 1000 =
            (RetryOutcome.ok v2,
             [retryAfterDelay ra0 1000 0, retryAfterDelay ra1 1000 1]) := by
            simp [retryWithBackoff, retryGo, hf0, hf1, hf2]);
         (have e : retryWithBackoff f 3 1000 =
            (RetryOutcome.thrown429 ra2,
             [retryAfterDelay ra0 1000 0, retryAfterDelay ra1 1000 1]) := by
            simp [retryWithBackoff, retryGo, hf0, hf1, hf2]);
         (have e : retryWithBackoff f 3 1000 =
            (RetryOutcome.thrownFailure,
             [retryAfterDelay ra0 1000 0, retryAfterDelay ra1 1000 1]) := by
            simp [retryWithBackoff, retryGo, hf0, hf1, hf2])] <;>
      · rw [e]
        refine ⟨by simp, ?_, ?_, ?_⟩
        · intro i hi
          simp only [List.length_cons, List.length_nil] at hi
          cases i with
          | zero => exact ⟨ra0, hf0, rfl⟩
          | succ j =>
            cases j with
            | zero => exact ⟨ra1, hf1, rfl⟩
            | succ k => omega
        · intro h; simp at h
        · intro ra0h ra1h ra2h h0 h1 h2
          simp_all

/-- C9 witness: three consecutive 429s without a retry-after header
give three attempts, waits of 1s and 2s, and a propagated 429. -/
theorem retryWithBackoff_spec_witness :
    ((fun _ => FetchResult.http429 none : ℕ → FetchResult ℕ) 0 =
        FetchResult.http429 none) ∧
    retryWithBackoff (fun _ => FetchResult.http429 none : ℕ → FetchResult ℕ)
        3 1000 =
      (RetryOutcome.thrown429 none, [1000, 2000]) := by
  constructor
  · rfl
  · have h := (retryWithBackoff_spec
      (fun _ => FetchResult.http429 none : ℕ → FetchResult ℕ)).2.2.2
      none none none rfl rfl rfl
    simpa [retryAfterDelay] using h

/-- C10: with a positive retry budget (all call sites pass 3, 2, or
the default 3), the retry utility never reaches the `return null`
after the loop: it either returns the wrapped call's value or
propagates an exception, so callers' null-result checks can never
fire. -/
theorem retryWithBackoff_never_null {α : Type} (f : ℕ → FetchResult α)
    (maxRetries baseDelay : ℕ) (h : 1 ≤ maxRetries) :
    (retryWithBackoff f maxRetries baseDelay).1 ≠ RetryOutcome.nullResult := by
  exact retryGo_ne_null f maxRetries baseDelay maxRetries 0 (by omega) (by omega)

/-- C10 witness: the open-interest call site's configuration
(2 attempts, 500 ms base delay) with an always-failing fetch still
never yields the null result. -/
theorem retryWithBackoff_never_null_witness :
    1 ≤ 2 ∧
    (retryWithBackoff (fun _ => (FetchResult.failure : FetchResult ℕ)) 2 500).1 ≠
      RetryOutcome.nullResult :=
  ⟨by decide,
   retryWithBackoff_never_null (fun _ => (FetchResult.failure : FetchResult ℕ))
     2 500 (by decide)⟩

/-- C6: after a successful pipeline run cached at time `ts`, every
request in a sequence arriving within the 2-minute TTL receives
exactly the cached record set, the cache entry is untouched, and zero
further upstream pipeline executions are issued — so the run that
populated the cache remains the only execution, however many requests
coincide inside the window.  On the single-threaded event loop the
cache check runs atomically (no await between `cache.get` and the
response), so concurrent requests are faithfully modelled by this
sequence of atomic steps. -/
theorem cache_spec (d : List CryptoData) (ts : ℕ)
    (reqs : List (ℕ × List CryptoData))
    (h : ∀ r ∈ reqs, r.1 - ts < CACHE_TTL) :
    (processRequests (some ⟨d, ts⟩) reqs).1 = reqs.map (fun _ => d) ∧
    (processRequests (some ⟨d, ts⟩) reqs).2.1 = some ⟨d, ts⟩ ∧
    (processRequests (some ⟨d, ts⟩) reqs).2.2 = 0 := by
  induction reqs with
  | nil => simp [processRequests]
  | cons r rest ih =>
    have hr : r.1 - ts < CACHE_TTL := h r (by simp)
    have hstep : handleRequest (some ⟨d, ts⟩) r.1 r.2 =
        (d, some ⟨d, ts⟩, false) := by
      simp [handleRequest, hr]
    have ihr := ih fun r2 hr2 => h r2 (by simp [hr2])
    simp only [processRequests, hstep]
    refine ⟨?_, ihr.2.1, ?_⟩
    · simp [ihr.1]
    · simp [ihr.2.2]

/-- C6 witness: two requests 80 seconds apart, both within the TTL of
an entry cached at time 0, get the cached data with zero pipeline
executions. -/
theorem cache_spec_witness :
    (∀ r ∈ [((1000 : ℕ), ([] : List CryptoData)), (81000, [])],
      r.1 - 0 < CACHE_TTL) ∧
    (processRequests (some ⟨[], 0⟩)
        [((1000 : ℕ), ([] : List CryptoData)), (81000, [])]).1 =
      [[], []] ∧
    (processRequests (some ⟨[], 0⟩)
        [((1000 : ℕ), ([] : List CryptoData)), (81000, [])]).2.2 = 0 := by
  have h : ∀ r ∈ [((1000 : ℕ), ([] : List CryptoData)), (81000, [])],
      r.1 - 0 < CACHE_TTL := by decide
  have hmain := cache_spec [] 0 [((1000 : ℕ), ([] : List CryptoData)), (81000, [])] h
  exact ⟨h, by rw [hmain.1]; rfl, hmain.2.2⟩

/-- C2 (code bug): with 30 coarse candles all closing at 100 and
current price 115, the source computes a monthly return of 15% from
`klines[klines.length - 30]` (29 periods back, threshold 30), although
the claim — and the source's own comment "Monthly return: (current
price - 30 days ago close) / 30 days ago close" — requires at least 31
candles (so this input should yield the zero fallback) and the close
30 periods back.  With 31 candles whose first close is 50 and the rest
100, the source again yields 15% where close 30 periods back (50)
would give 130%.  The daily (k = 1) and weekly (k = 7) returns do
follow the claimed pattern. -/
theorem monthlyReturn_off_by_one :
    monthlyReturn (List.replicate 30 ⟨100, 100, 100, 1⟩) 115 = 15 ∧
    monthlyReturn (⟨50, 50, 50, 1⟩ :: List.replicate 30 ⟨100, 100, 100, 1⟩)
        115 = 15 ∧
    ((115 - (50 : ℚ)) / 50) * 100 = 130 := by
  refine ⟨?_, ?_, by norm_num⟩
  · norm_num [monthlyReturn, closeAt, List.replicate_succ]
  · norm_num [monthlyReturn, closeAt, List.replicate_succ]

/-- C4: over any trailing window (the source uses 7, 30, 90 and 365)
of candles with non-negative volumes and non-negative typical prices
and a positive current price, the VWAP equals the volume-weighted
typical price when the summed volume is positive, falls back to the
current price exactly when the summed volume is zero, and the reported
distance is `(currentPrice - vwap) / vwap * 100`. -/
theorem calculateVWAP_spec (klines : List Candle) (currentPrice : ℚ)
    (days : ℕ) (hcp : 0 < currentPrice)
    (hvol : ∀ c ∈ klines, 0 ≤ c.volume)
    (htyp : ∀ c ∈ klines, 0 ≤ c.high + c.low + c.close) :
    (((klines.drop (klines.length - days)).map (fun c => c.volume)).sum = 0 →
      (calculateVWAP klines currentPrice days).1 = currentPrice) ∧
    (0 < ((klines.drop (klines.length - days)).map (fun c => c.volume)).sum →
      (calculateVWAP klines currentPrice days).1 =
        ((klines.drop (klines.length - days)).map
            (fun c => ((c.high + c.low + c.close) / 3) * c.volume)).sum /
          ((klines.drop (klines.length - days)).map (fun c => c.volume)).sum) ∧
    (calculateVWAP klines currentPrice days).2 =
      ((currentPrice - (calculateVWAP klines currentPrice days).1) /
        (calculateVWAP klines currentPrice days).1) * 100 := by
  set pk := klines.drop (klines.length - days) with hpk
  have hsub : ∀ c ∈ pk, c ∈ klines := fun c hc =>
    List.mem_of_mem_drop hc
  have hfold := foldl_pair_sum (fun c => ((c.high + c.low + c.close) / 3) * c.volume)
    (fun c => c.volume) pk 0 0
  have htpv_nonneg : 0 ≤ (pk.map (fun c => ((c.high + c.low + c.close) / 3) * c.volume)).sum := by
    apply List.sum_nonneg
    intro x hx
    rcases List.mem_map.mp hx with ⟨c, hc, rfl⟩
    have h1 := htyp c (hsub c hc)
    have h2 := hvol c (hsub c hc)
    have : (0 : ℚ) ≤ (c.high + c.low + c.close) / 3 := by positivity
    exact mul_nonneg this h2
  have hv_nonneg : 0 ≤ (pk.map (fun c => c.volume)).sum := by
    apply List.sum_nonneg
    intro x hx
    rcases List.mem_map.mp hx with ⟨c, hc, rfl⟩
    exact hvol c (hsub c hc)
  simp only [calculateVWAP, ← hpk, hfold, zero_add]
  set tv := (pk.map (fun c => c.volume)).sum with htv
  set tpv := (pk.map (fun c => ((c.high + c.low + c.close) / 3) * c.volume)).sum with htpv
  refine ⟨?_, ?_, ?_⟩
  · intro h0
    rw [h0]
    simp
  · intro hpos
    simp [hpos]
  · by_cases hpos : 0 < tv
    · simp only [hpos, if_true]
      by_cases hvwap : 0 < tpv / tv
      · simp [hvwap]
      · have : tpv / tv = 0 := le_antisymm (not_lt.mp hvwap) (div_nonneg htpv_nonneg hv_nonneg)
        simp [hvwap, this]
    · have h0 : tv = 0 := le_antisymm (not_lt.mp hpos) hv_nonneg
      simp only [hpos, if_false]
      simp [hcp, sub_self]

/-- C4 witness: a one-candle window with positive volume. -/
theorem calculateVWAP_spec_witness :
    (0 : ℚ) < 4 ∧
    (∀ c ∈ [(⟨3, 1, 2, 5⟩ : Candle)], 0 ≤ c.volume) ∧
    (∀ c ∈ [(⟨3, 1, 2, 5⟩ : Candle)], 0 ≤ c.high + c.low + c.close) ∧
    (0 < (([(⟨3, 1, 2, 5⟩ : Candle)].drop
        ([(⟨3, 1, 2, 5⟩ : Candle)].length - 7)).map (fun c => c.volume)).sum →
      (calculateVWAP [(⟨3, 1, 2, 5⟩ : Candle)] 4 7).1 =
        (([(⟨3, 1, 2, 5⟩ : Candle)].drop
            ([(⟨3, 1, 2, 5⟩ : Candle)].length - 7)).map
          (fun c => ((c.high + c.low + c.close) / 3) * c.volume)).sum /
          (([(⟨3, 1, 2, 5⟩ : Candle)].drop
            ([(⟨3, 1, 2, 5⟩ : Candle)].length - 7)).map (fun c => c.volume)).sum) := by
  have h1 : (0 : ℚ) < 4 := by norm_num
  have h2 : ∀ c ∈ [(⟨3, 1, 2, 5⟩ : Candle)], 0 ≤ c.volume := by
    intro c hc; rcases List.mem_singleton.mp hc with rfl; norm_num
  have h3 : ∀ c ∈ [(⟨3, 1, 2, 5⟩ : Candle)], 0 ≤ c.high + c.low + c.close := by
    intro c hc; rcases List.mem_singleton.mp hc with rfl; norm_num
  exact ⟨h1, h2, h3, (calculateVWAP_spec [⟨3, 1, 2, 5⟩] 4 7 h1 h2 h3).2.1⟩

/-- C5: for any positive period (all call sites use 200), whenever the
series filtered to valid (positive) closes has fewer than `period`
entries the EMA is the current price unmodified; otherwise it is the
fold of `ema = close * k + ema * (1 - k)` with `k = 2 / (period + 1)`
over the valid closes after the first, seeded with the first valid
close. -/
theorem calculateEMA_spec (klines : List Candle) (period : ℕ)
    (currentPrice : ℚ) (hp : 1 ≤ period) :
    ((klines.filter fun c => 0 < c.close).length < period →
      calculateEMA klines period currentPrice = currentPrice) ∧
    (∀ c rest, (klines.filter fun c0 => 0 < c0.close) = c :: rest →
      period ≤ rest.length + 1 →
      calculateEMA klines period currentPrice =
        rest.foldl
          (fun e c2 => c2.close * (2 / ((period : ℚ) + 1)) +
            e * (1 - 2 / ((period : ℚ) + 1)))
          c.close) := by
  constructor
  · intro hlt
    unfold calculateEMA
    by_cases hlen : klines.length < period
    · simp [hlen]
    · simp only [hlen, if_false]
      simp [hlt]
  · intro c rest hfilter hlen
    have hfl : (klines.filter fun c0 => 0 < c0.close).length = rest.length + 1 := by
      rw [hfilter]; simp
    have hklen : period ≤ klines.length := by
      have := List.length_filter_le (fun c0 => decide (0 < c0.close)) klines
      omega
    have hvalid : ∀ c2 ∈ c :: rest, 0 < c2.close := by
      intro c2 hc2
      rw [← hfilter] at hc2
      have := List.of_mem_filter hc2
      simpa using this
    have hk0 : 0 < 2 / ((period : ℚ) + 1) := by positivity
    have hk1 : 2 / ((period : ℚ) + 1) ≤ 1 := by
      rw [div_le_one (by positivity)]
      have : (1 : ℚ) ≤ (period : ℚ) := by exact_mod_cast hp
      linarith
    have hpos : 0 < rest.foldl
        (fun e c2 => c2.close * (2 / ((period : ℚ) + 1)) +
          e * (1 - 2 / ((period : ℚ) + 1))) c.close := by
      apply foldl_ema_pos _ hk0 hk1
      · exact hvalid c (by simp)
      · intro c2 hc2; exact hvalid c2 (by simp [hc2])
    unfold calculateEMA
    simp only [not_lt.mpr hklen, if_neg (by omega : ¬ klines.length < period)]
    rw [hfilter]
    simp only [List.length_cons, if_neg (by omega : ¬ rest.length + 1 < period)]
    simp only [not_le.mpr hpos, if_neg (not_le.mpr hpos)]
    simp

/-- C5 witness: a single valid candle with period 1 seeds the EMA at
its close and iterates over the empty tail, giving that close. -/
theorem calculateEMA_spec_witness :
    1 ≤ 1 ∧
    ([(⟨0, 0, 2, 0⟩ : Candle)].filter fun c0 => 0 < c0.close) =
      [(⟨0, 0, 2, 0⟩ : Candle)] ∧
    calculateEMA [(⟨0, 0, 2, 0⟩ : Candle)] 1 5 =
      ([] : List Candle).foldl
        (fun e c2 => c2.close * (2 / ((1 : ℕ) + 1 : ℚ)) +
          e * (1 - 2 / ((1 : ℕ) + 1 : ℚ)))
        (⟨0, 0, 2, 0⟩ : Candle).close := by
  have hfilter : ([(⟨0, 0, 2, 0⟩ : Candle)].filter fun c0 => 0 < c0.close) =
      [(⟨0, 0, 2, 0⟩ : Candle)] := by
    simp [List.filter]
  exact ⟨le_rfl, hfilter,
    (calculateEMA_spec [⟨0, 0, 2, 0⟩] 1 5 le_rfl).2 ⟨0, 0, 2, 0⟩ [] hfilter
      (by simp)⟩

/-- C3: the resolved universe has at most 100 symbols; every included
ticker has positive parsed last price and 24h quote volume and matches
a metadata entry with status TRADING, contract type PERPETUAL and a
USDT-quoted symbol; and the sequence is ordered by descending 24h
quote volume.  Ordering ties are broken deterministically: the
embedding is a pure function of the two upstream lists, and the stable
sort keeps equal-volume tickers in input order. -/
theorem resolveUniverse_spec (exInfo : List ExchangeSymbolInfo)
    (tickers : List Ticker) :
    (resolveUniverse exInfo tickers).length ≤ 100 ∧
    (∀ tk ∈ resolveUniverse exInfo tickers,
      0 < tk.lastPrice ∧ 0 < tk.quoteVolume ∧
      ∃ s ∈ exInfo, s.symbol = tk.symbol ∧ s.status = "TRADING" ∧
        s.contractType = "PERPETUAL" ∧ endsWithUSDT s.symbol = true) ∧
    (resolveUniverse exInfo tickers).Pairwise
      (fun a b => b.quoteVolume ≤ a.quoteVolume) := by
  unfold resolveUniverse
  refine ⟨?_, ?_, ?_⟩
  · rw [List.length_take]
    exact min_le_left _ _
  · intro tk htk
    have h1 := List.mem_of_mem_take htk
    have h2 := (sortDescBy_perm (fun t : Ticker => t.quoteVolume) _).mem_iff.mp h1
    rw [List.mem_filter] at h2
    rcases h2 with ⟨-, hpred⟩
    simp only [decide_eq_true_eq] at hpred
    rcases hpred with ⟨hsym, hqv, hlp⟩
    refine ⟨hlp, hqv, ?_⟩
    rcases List.mem_map.mp hsym with ⟨s, hs, hss⟩
    rw [List.mem_filter] at hs
    rcases hs with ⟨hsmem, hsp⟩
    simp only [decide_eq_true_eq] at hsp
    exact ⟨s, hsmem, hss, hsp.1, hsp.2.1, hsp.2.2⟩
  · exact (sortDescBy_sorted (fun t : Ticker => t.quoteVolume) _).sublist
      (List.take_sublist _ _)

/-- C3 witness: one TRADING PERPETUAL USDT instrument with positive
price and volume resolves to a singleton universe, for which the
contract is checked at the resolved ticker. -/
theorem resolveUniverse_spec_witness :
    ((⟨"AAAUSDT", 10, 500⟩ : Ticker) ∈
      resolveUniverse [⟨"AAAUSDT", "TRADING", "PERPETUAL"⟩]
        [⟨"AAAUSDT", 10, 500⟩]) ∧
    (0 < (⟨"AAAUSDT", 10, 500⟩ : Ticker).lastPrice ∧
      0 < (⟨"AAAUSDT", 10, 500⟩ : Ticker).quoteVolume ∧
      ∃ s ∈ [(⟨"AAAUSDT", "TRADING", "PERPETUAL"⟩ : ExchangeSymbolInfo)],
        s.symbol = (⟨"AAAUSDT", 10, 500⟩ : Ticker).symbol ∧
        s.status = "TRADING" ∧ s.contractType = "PERPETUAL" ∧
        endsWithUSDT s.symbol = true) := by
  have hmem : (⟨"AAAUSDT", 10, 500⟩ : Ticker) ∈
      resolveUniverse [⟨"AAAUSDT", "TRADING", "PERPETUAL"⟩]
        [⟨"AAAUSDT", 10, 500⟩] := by
    decide
  exact ⟨hmem,
    (resolveUniverse_spec [⟨"AAAUSDT", "TRADING", "PERPETUAL"⟩]
      [⟨"AAAUSDT", 10, 500⟩]).2.1 ⟨"AAAUSDT", 10, 500⟩ hmem⟩

/-- A record is only emitted with the ticker's symbol and volume, and
only past the validity gate: minimum 10,000 quote volume and a
positive second-to-last coarse close. -/
theorem processSymbol_gate (t : Ticker) (klines klines4h : List Candle)
    (oi24 oi7 : Option ℚ) (rec : CryptoData)
    (h : processSymbol t klines klines4h oi24 oi7 = some rec) :
    rec.symbol = t.symbol ∧ rec.volume = t.quoteVolume ∧
    10000 ≤ t.quoteVolume ∧ 2 ≤ klines.length ∧
    0 < closeAt klines (klines.length - 2) := by
  unfold processSymbol at h
  split_ifs at h with h1 h2 h3 h4
  rcases h4 with ⟨hvol, hlen, hclose⟩
  have hrec := Option.some.inj h
  subst hrec
  exact ⟨rfl, rfl, hvol, hlen, hclose⟩

/-- `processFetched` preserves the symbol and the gate. -/
theorem processFetched_gate (t : Ticker) (fd : FetchData) (rec : CryptoData)
    (h : processFetched t fd = some rec) :
    rec.symbol = t.symbol ∧ rec.volume = t.quoteVolume ∧
    10000 ≤ t.quoteVolume := by
  unfold processFetched at h
  cases hc : fd.coarse with
  | none => rw [hc] at h; exact Option.noConfusion h
  | some klines =>
    rw [hc] at h
    have := processSymbol_gate t klines fd.fine fd.oi24 fd.oi7 rec h
    exact ⟨this.1, this.2.1, this.2.2.1⟩

/-- The symbols of a symbol-preserving `filterMap` form a sublist of
the input symbols. -/
theorem filterMap_symbol_sublist (f : Ticker → Option CryptoData)
    (hpres : ∀ t rec, f t = some rec → rec.symbol = t.symbol) :
    ∀ l : List Ticker,
      ((l.filterMap f).map (fun r => r.symbol)).Sublist
        (l.map (fun t => t.symbol)) := by
  intro l
  induction l with
  | nil => simp
  | cons t l ih =>
    cases hft : f t with
    | none =>
      rw [List.filterMap_cons_none hft, List.map_cons]
      exact ih.cons _
    | some rec =>
      rw [List.filterMap_cons_some hft]
      simp only [List.map_cons]
      rw [hpres t rec hft]
      exact ih.cons₂ _

/-- C7: no record below the 10,000 24h-quote-volume floor ever appears
in the pipeline output, and a record is only ever produced from a
coarse series whose second-to-last close exists and is positive — a
candidate failing either condition is discarded before merging. -/
theorem validity_gate_spec (exInfo : List ExchangeSymbolInfo)
    (tickers : List Ticker) (fetch : Ticker → FetchData) :
    (∀ rec ∈ pipelineOutput exInfo tickers fetch, 10000 ≤ rec.volume) ∧
    (∀ (t : Ticker) (klines klines4h : List Candle) (oi24 oi7 : Option ℚ)
        (rec : CryptoData),
      processSymbol t klines klines4h oi24 oi7 = some rec →
      10000 ≤ rec.volume ∧ 2 ≤ klines.length ∧
        0 < closeAt klines (klines.length - 2)) := by
  constructor
  · intro rec hrec
    unfold pipelineOutput at hrec
    have h1 := (sortDescBy_perm (fun r : CryptoData => r.volume) _).mem_iff.mp hrec
    rw [runBatches_eq] at h1
    rcases List.mem_filterMap.mp h1 with ⟨t, -, hft⟩
    have := processFetched_gate t (fetch t) rec hft
    rw [this.2.1]
    exact this.2.2
  · intro t klines klines4h oi24 oi7 rec h
    have := processSymbol_gate t klines klines4h oi24 oi7 rec h
    rw [this.2.1]
    exact ⟨this.2.2.1, this.2.2.2⟩

/-- Concrete ticker for gate witnesses. -/
def witTicker : Ticker := ⟨"WIT", 100, 20000⟩

/-- Concrete two-candle coarse series for gate witnesses. -/
def witKlines : List Candle := [⟨100, 100, 100, 1⟩, ⟨100, 100, 100, 1⟩]

/-- The record the pipeline computes for `witTicker`/`witKlines`. -/
def witRecord : CryptoData :=
  ⟨"WIT", 100, 0, 0, 0, 20000, 100, 0, 100, 0, 100, 0, 100, 0,
   100, 0, 100, 0, none, none, none⟩

/-- C7 witness: a concrete ticker above the volume floor with a valid
two-candle series produces a record, which the gate theorem certifies. -/
theorem validity_gate_spec_witness :
    processSymbol witTicker witKlines [] none none = some witRecord ∧
    (10000 ≤ witRecord.volume ∧ 2 ≤ witKlines.length ∧
      0 < closeAt witKlines (witKlines.length - 2)) := by
  have heq : processSymbol witTicker witKlines [] none none = some witRecord := by
    unfold processSymbol witTicker witKlines witRecord
    norm_num [dailyReturn, weeklyReturn, monthlyReturn, closeAt,
      calculateVWAP, calculateEMA, ema2004hOf, priceFor4hOf, priceFor1dOf,
      ema200Distance, lastCloseOf, hasValidKlines4hOf, zScoreVal, zScoreCore,
      defaultCandle]
  exact ⟨heq,
    (validity_gate_spec [] [] (fun _ => ⟨none, [], none, none⟩)).2
      witTicker witKlines [] none none witRecord heq⟩

/-- C8: whenever the upstream 24h-ticker snapshot lists each symbol
once (one entry per symbol, as the endpoint is keyed), the merged
pipeline output has no duplicate symbols and is ordered by descending
volume; the embedding merges per-symbol results in input order
(`Promise.allSettled` preserves array order), so this holds regardless
of the completion order of the individual fetch tasks, and the final
stable sort allows ties. -/
theorem pipelineOutput_sorted_nodup (exInfo : List ExchangeSymbolInfo)
    (tickers : List Ticker) (fetch : Ticker → FetchData)
    (hsym : (tickers.map (fun t => t.symbol)).Nodup) :
    ((pipelineOutput exInfo tickers fetch).map (fun r => r.symbol)).Nodup ∧
    (pipelineOutput exInfo tickers fetch).Pairwise
      (fun a b => b.volume ≤ a.volume) := by
  have huniv : ((resolveUniverse exInfo tickers).map (fun t => t.symbol)).Nodup := by
    unfold resolveUniverse
    have hfil : ((tickers.filter fun tk =>
        tk.symbol ∈ (exInfo.filter fun s =>
          s.status = "TRADING" ∧ s.contractType = "PERPETUAL" ∧
            endsWithUSDT s.symbol = true).map (fun s => s.symbol) ∧
        0 < tk.quoteVolume ∧ 0 < tk.lastPrice).map
          (fun t => t.symbol)).Nodup :=
      hsym.sublist ((List.filter_sublist _).map _)
    have hsort := ((sortDescBy_perm (fun t : Ticker => t.quoteVolume) _).map
      (fun t : Ticker => t.symbol)).nodup_iff.mpr hfil
    exact hsort.sublist ((List.take_sublist _ _).map _)
  have hmerged : ((runBatches fetch (resolveUniverse exInfo tickers)).map
      (fun r => r.symbol)).Nodup := by
    rw [runBatches_eq]
    refine huniv.sublist ?_
    exact filterMap_symbol_sublist _
      (fun t rec h => (processFetched_gate t (fetch t) rec h).1) _
  constructor
  · unfold pipelineOutput
    exact ((sortDescBy_perm (fun r : CryptoData => r.volume) _).map
      (fun r : CryptoData => r.symbol)).nodup_iff.mpr hmerged
  · exact sortDescBy_sorted (fun r : CryptoData => r.volume) _

/-- C8 witness: a single-ticker snapshot satisfies the uniqueness
hypothesis and the sorted, duplicate-free conclusion. -/
theorem pipelineOutput_sorted_nodup_witness :
    (([witTicker] : List Ticker).map (fun t => t.symbol)).Nodup ∧
    ((pipelineOutput [⟨"WITUSDT", "TRADING", "PERPETUAL"⟩] [witTicker]
        (fun _ => ⟨some witKlines, [], none, none⟩)).map
      (fun r => r.symbol)).Nodup ∧
    (pipelineOutput [⟨"WITUSDT", "TRADING", "PERPETUAL"⟩] [witTicker]
        (fun _ => ⟨some witKlines, [], none, none⟩)).Pairwise
      (fun a b => b.volume ≤ a.volume) := by
  have h : (([witTicker] : List Ticker).map (fun t => t.symbol)).Nodup := by
    simp
  have hmain := pipelineOutput_sorted_nodup
    [⟨"WITUSDT", "TRADING", "PERPETUAL"⟩] [witTicker]
    (fun _ => ⟨some witKlines, [], none, none⟩) h
  exact ⟨h, hmain.1, hmain.2⟩

/-- When all 30 consecutive pairs of the trailing 31-candle window pass
the validity filter, the final candle's close — the one `todayReturn`
divides by — is positive, so the daily-return fallback never fires. -/
theorem lastClose_pos_of_full_returns (klines : List Candle)
    (h31 : 31 ≤ klines.length)
    (h30 : 30 ≤ (returnsOf (recentOf klines)).length) :
    0 < lastCloseOf klines := by
  have hreclen : (recentOf klines).length = 31 := by
    simp only [recentOf, List.length_drop]
    omega
  have htaillen : (recentOf klines).tail.length = 30 := by
    rw [List.length_tail, hreclen]
  have hziplen : ((recentOf klines).zip (recentOf klines).tail).length = 30 := by
    rw [List.length_zip, hreclen, htaillen]
    omega
  have h30a : ((recentOf klines).zip (recentOf klines).tail).length ≤
      (returnsOf (recentOf klines)).length := by omega
  have hall := all_isSome_of_length_le
    (fun p : Candle × Candle =>
      if 0 < p.1.close ∧ 0 < p.2.close then
        some (((p.2.close - p.1.close) / p.1.close) * 100)
      else none)
    ((recentOf klines).zip (recentOf klines).tail)
    (by simpa [returnsOf] using h30a)
  have h29 : 29 < ((recentOf klines).zip (recentOf klines).tail).length := by
    omega
  have h29r : 29 < (recentOf klines).length := by omega
  have h29t : 29 < (recentOf klines).tail.length := by omega
  have hsome := hall (((recentOf klines).zip (recentOf klines).tail)[29])
    (List.getElem_mem _)
  rw [List.getElem_zip] at hsome
  dsimp only at hsome
  split_ifs at hsome with hc
  · have h30r : 29 + 1 < (recentOf klines).length := by omega
    have htail : (recentOf klines).tail[29] = (recentOf klines)[29 + 1] := by
      rw [List.getElem_tail]
    have hdropidx : klines.length - 31 + 30 < klines.length := by omega
    have hdrop : (recentOf klines)[29 + 1] =
        klines[klines.length - 31 + 30] := by
      simp only [recentOf]
      rw [List.getElem_drop]
    have hlastidx : klines.length - 31 + 30 = klines.length - 1 := by omega
    have hb : klines.length - 1 < klines.length := by omega
    have hlast : 0 < (klines[klines.length - 1]).close := by
      have h0 := hc.2
      rw [htail, hdrop] at h0
      simpa [hlastidx] using h0
    have hgetD : lastCloseOf klines = (klines[klines.length - 1]).close := by
      simp only [lastCloseOf, closeAt]
      rw [List.getD_eq_getElem klines defaultCandle hb]
    rw [hgetD]
    exact hlast
  · simp at hsome

/-- A z-score is never produced from a failed core computation. -/
theorem zScoreVal_of_core_none (klines : List Candle) (cp dr : ℚ)
    (h : zScoreCore klines cp dr = none) : zScoreVal klines cp dr = none := by
  unfold zScoreVal
  rw [h]

/-- The z-score core yields nothing below 31 coarse candles. -/
theorem zScoreCore_none_short (klines : List Candle) (cp dr : ℚ)
    (h : klines.length < 31) : zScoreCore klines cp dr = none := by
  simp only [zScoreCore]
  rw [if_neg (by omega)]

/-- The z-score core yields nothing with fewer than 30 valid returns. -/
theorem zScoreCore_none_few (klines : List Candle) (cp dr : ℚ)
    (h31 : 31 ≤ klines.length)
    (h : (returnsOf (recentOf klines)).length < 30) :
    zScoreCore klines cp dr = none := by
  simp only [zScoreCore]
  rw [if_pos h31, if_neg (by omega)]

/-- C1: with at least 31 coarse candles whose trailing 31-candle
window yields at least 30 valid day-over-day returns of positive
variance, the z-score is present and equals
`(mean - todayReturn) / sqrt(variance)` with
`todayReturn = (currentPrice - lastClose) / lastClose * 100` (the
daily-return fallback cannot fire since the last close is then
positive), and its sign matches that of `mean - todayReturn`; the
value is a real number, hence finite.  With fewer than 31 candles,
fewer than 30 valid returns, or zero variance (zero standard
deviation), the z-score is absent, not zero. -/
theorem zScore_spec (klines : List Candle) (currentPrice dailyRet : ℚ) :
    (31 ≤ klines.length →
      30 ≤ (returnsOf (recentOf klines)).length →
      0 < varOf (returnsOf (recentOf klines)) →
      0 < lastCloseOf klines ∧
      zScoreVal klines currentPrice dailyRet =
        some (((meanOf (returnsOf (recentOf klines)) : ℝ) -
               (todayReturnOf klines currentPrice : ℝ)) /
              Real.sqrt (varOf (returnsOf (recentOf klines)) : ℝ)) ∧
      ((0 : ℝ) < (meanOf (returnsOf (recentOf klines)) : ℝ) -
          (todayReturnOf klines currentPrice : ℝ) →
        (0 : ℝ) < ((meanOf (returnsOf (recentOf klines)) : ℝ) -
            (todayReturnOf klines currentPrice : ℝ)) /
          Real.sqrt (varOf (returnsOf (recentOf klines)) : ℝ)) ∧
      ((meanOf (returnsOf (recentOf klines)) : ℝ) -
          (todayReturnOf klines currentPrice : ℝ) < 0 →
        ((meanOf (returnsOf (recentOf klines)) : ℝ) -
            (todayReturnOf klines currentPrice : ℝ)) /
          Real.sqrt (varOf (returnsOf (recentOf klines)) : ℝ) < 0)) ∧
    (klines.length < 31 → zScoreVal klines currentPrice dailyRet = none) ∧
    (31 ≤ klines.length → (returnsOf (recentOf klines)).length < 30 →
      zScoreVal klines currentPrice dailyRet = none) ∧
    (varOf (returnsOf (recentOf klines)) = 0 →
      zScoreVal klines currentPrice dailyRet = none) := by
  refine ⟨?_, ?_, ?_, ?_⟩
  · intro h31 h30 hvar
    have hlast := lastClose_pos_of_full_returns klines h31 h30
    have hcore : zScoreCore klines currentPrice dailyRet =
        some (meanOf (returnsOf (recentOf klines)),
              varOf (returnsOf (recentOf klines)),
              todayReturnOf klines currentPrice) := by
      simp only [zScoreCore]
      rw [if_pos h31, if_pos h30, if_pos hlast]
    have hsq : (0 : ℝ) < Real.sqrt (varOf (returnsOf (recentOf klines)) : ℝ) := by
      apply Real.sqrt_pos.mpr
      exact_mod_cast hvar
    refine ⟨hlast, ?_, ?_, ?_⟩
    · unfold zScoreVal
      rw [hcore]
      dsimp only
      rw [if_pos hsq]
    · intro hpos
      exact div_pos hpos hsq
    · intro hneg
      exact div_neg_of_neg_of_pos hneg hsq
  · intro hlt
    exact zScoreVal_of_core_none _ _ _ (zScoreCore_none_short _ _ _ hlt)
  · intro h31 hfew
    exact zScoreVal_of_core_none _ _ _ (zScoreCore_none_few _ _ _ h31 hfew)
  · intro hv0
    by_cases h31 : 31 ≤ klines.length
    · by_cases h30 : 30 ≤ (returnsOf (recentOf klines)).length
      · have hcore : zScoreCore klines currentPrice dailyRet =
            some (meanOf (returnsOf (recentOf klines)),
                  varOf (returnsOf (recentOf klines)),
                  if 0 < lastCloseOf klines then
                    todayReturnOf klines currentPrice
                  else dailyRet) := by
          simp only [zScoreCore]
          rw [if_pos h31, if_pos h30]
        unfold zScoreVal
        rw [hcore]
        dsimp only
        rw [hv0]
        simp [Real.sqrt_zero]
      · exact zScoreVal_of_core_none _ _ _
          (zScoreCore_none_few _ _ _ h31 (by omega))
    · exact zScoreVal_of_core_none _ _ _
        (zScoreCore_none_short _ _ _ (by omega))

/-- Concrete 31-candle series for the z-score witness: 29 closes at
100, then 200, then 100, giving 28 zero returns, +100% and -50%. -/
def c1Klines : List Candle :=
  List.replicate 29 ⟨100, 100, 100, 1⟩ ++ [⟨200, 200, 200, 1⟩, ⟨100, 100, 100, 1⟩]

/-- C1 witness: the concrete series has 31 candles, 30 valid returns
and positive variance, so its z-score is present. -/
theorem zScore_spec_witness :
    31 ≤ c1Klines.length ∧
    30 ≤ (returnsOf (recentOf c1Klines)).length ∧
    0 < varOf (returnsOf (recentOf c1Klines)) ∧
    (zScoreVal c1Klines 300 0).isSome = true := by
  have hrs : returnsOf (recentOf c1Klines) =
      List.replicate 28 (0 : ℚ) ++ [100, -50] := by
    norm_num [returnsOf, recentOf, c1Klines, List.replicate_succ,
      List.zip_cons_cons, List.filterMap_cons]
  have h1 : 31 ≤ c1Klines.length := by norm_num [c1Klines]
  have h2 : 30 ≤ (returnsOf (recentOf c1Klines)).length := by
    rw [hrs]; norm_num
  have h3 : 0 < varOf (returnsOf (recentOf c1Klines)) := by
    rw [hrs]
    norm_num [varOf, meanOf, List.replicate_succ]
  have h := (zScore_spec c1Klines 300 0).1 h1 h2 h3
  exact ⟨h1, h2, h3, by rw [h.2.1]; rfl⟩
